import Mathlib

/-!
Verification of the expiring keyed-container subsystem of the za-utils
repository: the ExpiringMap class (src/expiring-map.ts) together with the
toSync adapter (src/async.ts).  The ExpiringSet class is the same design
specialized to value-less entries.

Modelling conventions (shallow embedding):
* The JavaScript Map backing store is an insertion-ordered association list
  List (K × MapEntry ...); jsMapGet / jsMapSet / jsMapDelete mirror the
  insertion-order semantics of Map.prototype.get / set / delete
  (set replaces in place when the key is present, appends otherwise;
  delete removes the first matching entry).
* setTimeout / clearTimeout are modelled by a pending-timer association
  list keyed by a fresh numeric timer id drawn from a counter; the data
  captured by the timer closure (key, value, effective expiry callback,
  delay) is recorded in a TimerData value.  Firing a timer is the explicit
  event fireTimer, which consumes the pending entry (single shot).
* Date.now() is an explicit parameter now : Nat of each operation that
  reads the clock; within one operation call the clock does not move.
* An expiry callback acts on an external world W and may fail with an
  error E.  It receives the key, the stored value, and the list of keys
  currently present in the container (the observable membership view the
  callback can query through the container reference it is handed).
  Callbacks do not mutate the container itself in this model.
* A possibly-rejecting asynchronous computation is a function returning
  its result together with Option E; absence of an error channel in a
  return type means the corresponding source path cannot throw.
-/

set_option autoImplicit false
set_option linter.unusedSectionVars false
set_option linter.unnecessarySimpa false

namespace ZaUtils

variable {K V W E : Type}

/-- Type of expiry callbacks: key, value, current key list of the
container, world in; world and optional error out. -/
def ExpiryCallback (K V W E : Type) : Type :=
  K → V → List K → W → W × Option E

/-- The record stored per key in the ExpiringMap private Map:
timestamp of scheduled expiry, timer handle, callback, value. -/
structure MapEntry (K V W E : Type) where
  expiry : Option Nat
  timer : Option Nat
  expiryCallback : Option (ExpiryCallback K V W E)
  value : V

/-- The data captured by the closure passed to setTimeout in
ExpiringMap.set: the key, the value, the effective expiry callback and
the delay in milliseconds. -/
structure TimerData (K V W E : Type) where
  key : K
  value : V
  expiryCallback : Option (ExpiryCallback K V W E)
  delayMs : Nat

/-- Constructor options of ExpiringMap.  The expireErrorCallback error
sink acts on the external world. -/
structure ExpiringMapOptions (K V W E : Type) where
  defaultExpiryMs : Option Nat
  defaultExpiryCallback : Option (ExpiryCallback K V W E)
  expireErrorCallback : Option (E → W → W)

/-- State of one ExpiringMap instance: its options, the backing Map in
insertion order, the pending timers armed by setTimeout and not yet fired
or cancelled, and the fresh-timer-id counter. -/
structure ExpiringMap (K V W E : Type) where
  options : Option (ExpiringMapOptions K V W E)
  map : List (K × MapEntry K V W E)
  pending : List (Nat × TimerData K V W E)
  nextTimerId : Nat

section JsMap

variable {A : Type} {B : Type} [DecidableEq A]

/-- Map.prototype.get on an insertion-ordered association list. -/
def jsMapGet : List (A × B) → A → Option B
  | [], _ => none
  | (k1, v1) :: rest, k => if k1 = k then some v1 else jsMapGet rest k

/-- Map.prototype.has. -/
def jsMapHas (mp : List (A × B)) (k : A) : Bool :=
  (jsMapGet mp k).isSome

/-- Map.prototype.set: replaces in place when the key is present,
appends at the end otherwise. -/
def jsMapSet : List (A × B) → A → B → List (A × B)
  | [], k, v => [(k, v)]
  | (k1, v1) :: rest, k, v =>
    if k1 = k then (k1, v) :: rest else (k1, v1) :: jsMapSet rest k v

/-- Map.prototype.delete (the state part): removes the first entry whose
key matches. -/
def jsMapDelete : List (A × B) → A → List (A × B)
  | [], _ => []
  | (k1, v1) :: rest, k =>
    if k1 = k then rest else (k1, v1) :: jsMapDelete rest k

/-- The keys of an association list, in insertion order. -/
def keysOf (mp : List (A × B)) : List A :=
  mp.map Prod.fst

@[simp]
theorem jsMapGet_nil {k : A} : jsMapGet ([] : List (A × B)) k = none := rfl

@[simp]
theorem jsMapGet_cons {k1 : A} {v1 : B} {rest : List (A × B)} {k : A} :
    jsMapGet ((k1, v1) :: rest) k =
      if k1 = k then some v1 else jsMapGet rest k := rfl

@[simp]
theorem jsMapSet_nil {k : A} {v : B} : jsMapSet ([] : List (A × B)) k v = [(k, v)] := rfl

@[simp]
theorem jsMapSet_cons {k1 : A} {v1 : B} {rest : List (A × B)} {k : A} {v : B} :
    jsMapSet ((k1, v1) :: rest) k v =
      if k1 = k then (k1, v) :: rest else (k1, v1) :: jsMapSet rest k v := rfl

@[simp]
theorem jsMapDelete_nil {k : A} : jsMapDelete ([] : List (A × B)) k = [] := rfl

@[simp]
theorem jsMapDelete_cons {k1 : A} {v1 : B} {rest : List (A × B)} {k : A} :
    jsMapDelete ((k1, v1) :: rest) k =
      if k1 = k then rest else (k1, v1) :: jsMapDelete rest k := rfl

@[simp]
theorem keysOf_nil : keysOf ([] : List (A × B)) = [] := rfl

@[simp]
theorem keysOf_cons {k1 : A} {v1 : B} {rest : List (A × B)} :
    keysOf ((k1, v1) :: rest) = k1 :: keysOf rest := rfl

theorem jsMapGet_set_self (mp : List (A × B)) (k : A) (v : B) :
    jsMapGet (jsMapSet mp k v) k = some v := by
  induction mp with
  | nil => simp
  | cons hd rest ih =>
    obtain ⟨k1, v1⟩ := hd
    by_cases h : k1 = k <;> simp [h, ih]

theorem jsMapGet_set_ne (mp : List (A × B)) (k k2 : A) (v : B) (h : k2 ≠ k) :
    jsMapGet (jsMapSet mp k v) k2 = jsMapGet mp k2 := by
  induction mp with
  | nil => simp [Ne.symm h]
  | cons hd rest ih =>
    obtain ⟨k1, v1⟩ := hd
    by_cases h1 : k1 = k
    · subst h1
      simp [Ne.symm h]
    · simp [h1, ih]

theorem jsMapGet_eq_none_of_not_mem (mp : List (A × B)) (k : A)
    (h : k ∉ keysOf mp) : jsMapGet mp k = none := by
  induction mp with
  | nil => simp
  | cons hd rest ih =>
    obtain ⟨k1, v1⟩ := hd
    simp only [keysOf_cons, List.mem_cons] at h
    push_neg at h
    simp [Ne.symm h.1, ih h.2]

theorem mem_keysOf_of_get_some (mp : List (A × B)) (k : A) {v : B}
    (h : jsMapGet mp k = some v) : k ∈ keysOf mp := by
  by_contra hmem
  rw [jsMapGet_eq_none_of_not_mem mp k hmem] at h
  exact Option.noConfusion h

theorem jsMapGet_delete_self (mp : List (A × B)) (k : A)
    (h : (keysOf mp).Nodup) : jsMapGet (jsMapDelete mp k) k = none := by
  induction mp with
  | nil => simp
  | cons hd rest ih =>
    obtain ⟨k1, v1⟩ := hd
    simp only [keysOf_cons, List.nodup_cons] at h
    by_cases h1 : k1 = k
    · subst h1
      simp only [jsMapDelete_cons, if_pos rfl]
      exact jsMapGet_eq_none_of_not_mem rest k1 h.1
    · simp [h1, ih h.2]

theorem jsMapGet_delete_ne (mp : List (A × B)) (k k2 : A) (h : k2 ≠ k) :
    jsMapGet (jsMapDelete mp k) k2 = jsMapGet mp k2 := by
  induction mp with
  | nil => simp
  | cons hd rest ih =>
    obtain ⟨k1, v1⟩ := hd
    by_cases h1 : k1 = k
    · subst h1
      simp [Ne.symm h]
    · by_cases h2 : k1 = k2 <;> simp [h1, h2, ih, h]

theorem jsMapSet_of_get_none (mp : List (A × B)) (k : A) (v : B)
    (h : jsMapGet mp k = none) : jsMapSet mp k v = mp ++ [(k, v)] := by
  induction mp with
  | nil => simp
  | cons hd rest ih =>
    obtain ⟨k1, v1⟩ := hd
    simp only [jsMapGet_cons] at h
    by_cases h1 : k1 = k
    · simp [h1] at h
    · simp only [jsMapSet_cons, if_neg h1, List.cons_append, List.cons.injEq, true_and]
      exact ih (by simpa [h1] using h)

theorem jsMapSet_self_of_get (mp : List (A × B)) (k : A) {v : B}
    (h : jsMapGet mp k = some v) : jsMapSet mp k v = mp := by
  induction mp with
  | nil => simp at h
  | cons hd rest ih =>
    obtain ⟨k1, v1⟩ := hd
    by_cases h1 : k1 = k
    · simp only [jsMapGet_cons, if_pos h1] at h
      obtain rfl : v1 = v := Option.some.injEq v1 v ▸ h
      simp [h1]
    · simp only [jsMapGet_cons, if_neg h1] at h
      simp [h1, ih h]

theorem keysOf_set_of_get_some (mp : List (A × B)) (k : A) (v : B) {v0 : B}
    (h : jsMapGet mp k = some v0) : keysOf (jsMapSet mp k v) = keysOf mp := by
  induction mp with
  | nil => simp at h
  | cons hd rest ih =>
    obtain ⟨k1, v1⟩ := hd
    by_cases h1 : k1 = k
    · simp [h1]
    · simp only [jsMapGet_cons, if_neg h1] at h
      simp [h1, ih h]

theorem keysOf_delete (mp : List (A × B)) (k : A) :
    keysOf (jsMapDelete mp k) = (keysOf mp).erase k := by
  induction mp with
  | nil => simp
  | cons hd rest ih =>
    obtain ⟨k1, v1⟩ := hd
    by_cases h1 : k1 = k
    · subst h1
      simp [List.erase_cons]
    · simp [List.erase_cons, h1, ih]

theorem mem_of_mem_jsMapDelete (mp : List (A × B)) (k : A) {q : A × B}
    (h : q ∈ jsMapDelete mp k) : q ∈ mp := by
  induction mp with
  | nil => simpa using h
  | cons hd rest ih =>
    obtain ⟨k1, v1⟩ := hd
    by_cases h1 : k1 = k
    · subst h1
      simp only [jsMapDelete_cons, if_pos rfl] at h
      exact List.mem_cons_of_mem _ h
    · simp only [jsMapDelete_cons, if_neg h1, List.mem_cons] at h
      rcases h with h | h
      · exact h ▸ List.mem_cons_self _ _
      · exact List.mem_cons_of_mem _ (ih h)

theorem jsMapGet_append_right (mp : List (A × B)) (k : A) (v : B)
    (h : jsMapGet mp k = none) : jsMapGet (mp ++ [(k, v)]) k = some v := by
  induction mp with
  | nil => simp
  | cons hd rest ih =>
    obtain ⟨k1, v1⟩ := hd
    simp only [jsMapGet_cons] at h
    by_cases h1 : k1 = k
    · simp [h1] at h
    · simp only [List.cons_append, jsMapGet_cons, if_neg h1]
      exact ih (by simpa [h1] using h)

theorem nodup_keysOf_delete (mp : List (A × B)) (k : A)
    (h : (keysOf mp).Nodup) : (keysOf (jsMapDelete mp k)).Nodup := by
  rw [keysOf_delete]
  exact h.erase k

end JsMap

/-- clearTimeout: removes a pending timer by handle; called with undefined
(none) it is a no-op, and clearing an id that is no longer pending is a
no-op as well. -/
def clearTimeoutOn {K V W E : Type} (pending : List (Nat × TimerData K V W E)) :
    Option Nat → List (Nat × TimerData K V W E)
  | none => pending
  | some tid => jsMapDelete pending tid

/-- toSync from src/async.ts, over an explicit state type S: wraps a
fallible operation into one that cannot fail, invoking the error callback
on failure when it is a function and swallowing the error otherwise. -/
def toSync {S E : Type} (asyncFunc : S → S × Option E)
    (errorCallback : Option (E → S → S)) : S → S :=
  fun s =>
    match asyncFunc s with
    | (s1, some err) =>
      match errorCallback with
      | some cb => cb err s1
      | none => s1
    | (s1, none) => s1

variable [DecidableEq K]

/-- ExpiringMap.delete: clearTimeout on the timer of the entry (if any),
then Map.prototype.delete; returns whether the key existed.  No expiry
callback is invoked (the definition has no world or error channel). -/
def ExpiringMap.delete (m : ExpiringMap K V W E) (k : K) :
    ExpiringMap K V W E × Bool :=
  (⟨m.options, jsMapDelete m.map k,
    clearTimeoutOn m.pending ((jsMapGet m.map k).bind MapEntry.timer),
    m.nextTimerId⟩,
   jsMapHas m.map k)

/-- ExpiringMap.set: deletes any previous entry for the key, resolves the
effective expiryMs and expiryCallback from the arguments with fallback to
the constructor defaults, and if an effective TTL is present computes the
absolute expiry now + expiryMs and arms a fresh single-shot timer whose
closure captures the key, the value and the effective callback.  The new
entry is stored with Map.prototype.set (appending, since the key was just
deleted). -/
def ExpiringMap.set (m : ExpiringMap K V W E) (k : K) (v : V)
    (expiryMsArg : Option Nat) (expiryCallbackArg : Option (ExpiryCallback K V W E))
    (now : Nat) : ExpiringMap K V W E :=
  let m1 := (m.delete k).1
  let expiryMs := match expiryMsArg with
    | some ms => some ms
    | none => m.options.bind ExpiringMapOptions.defaultExpiryMs
  let expiryCallback := match expiryCallbackArg with
    | some cb => some cb
    | none => m.options.bind ExpiringMapOptions.defaultExpiryCallback
  match expiryMs with
  | some ms =>
    ⟨m1.options,
     jsMapSet m1.map k ⟨some (now + ms), some m1.nextTimerId, expiryCallback, v⟩,
     m1.pending ++ [(m1.nextTimerId, ⟨k, v, expiryCallback, ms⟩)],
     m1.nextTimerId + 1⟩
  | none =>
    ⟨m1.options, jsMapSet m1.map k ⟨none, none, expiryCallback, v⟩,
     m1.pending, m1.nextTimerId⟩

/-- ExpiringMap.get. -/
def ExpiringMap.get (m : ExpiringMap K V W E) (k : K) : Option V :=
  (jsMapGet m.map k).map MapEntry.value

/-- ExpiringMap.has. -/
def ExpiringMap.has (m : ExpiringMap K V W E) (k : K) : Bool :=
  jsMapHas m.map k

/-- ExpiringMap.getExpiry. -/
def ExpiringMap.getExpiry (m : ExpiringMap K V W E) (k : K) : Option Nat :=
  (jsMapGet m.map k).bind MapEntry.expiry

/-- ExpiringMap.keys: the keys in insertion order. -/
def ExpiringMap.keysList (m : ExpiringMap K V W E) : List K :=
  keysOf m.map

/-- ExpiringMap.entries: key and value pairs in insertion order. -/
def ExpiringMap.entriesList (m : ExpiringMap K V W E) : List (K × V) :=
  m.map.map (fun p => (p.1, p.2.value))

/-- ExpiringMap.values: iterates entries and projects the value. -/
def ExpiringMap.valuesList (m : ExpiringMap K V W E) : List V :=
  m.entriesList.map Prod.snd

/-- ExpiringMap.size. -/
def ExpiringMap.size (m : ExpiringMap K V W E) : Nat :=
  m.map.length

/-- ExpiringMap.clear: delete applied to every key of the map. -/
def ExpiringMap.clear (m : ExpiringMap K V W E) : ExpiringMap K V W E :=
  m.keysList.foldl (fun acc k => (acc.delete k).1) m

/-- ExpiringMap.clearExpiry: when the key is present, clearTimeout on the
timer of its entry and reset the expiry and timer fields in place (the
key, value, callback and list position are untouched); returns whether
the key existed. -/
def ExpiringMap.clearExpiry (m : ExpiringMap K V W E) (k : K) :
    ExpiringMap K V W E × Bool :=
  match jsMapGet m.map k with
  | some entry =>
    (⟨m.options,
      jsMapSet m.map k ⟨none, none, entry.expiryCallback, entry.value⟩,
      clearTimeoutOn m.pending entry.timer,
      m.nextTimerId⟩, true)
  | none => (m, false)

/-- ExpiringMap.setExpiry: when the key is present, re-inserts the stored
value with the stored expiry callback under the new TTL via set; returns
whether the key existed. -/
def ExpiringMap.setExpiry (m : ExpiringMap K V W E) (k : K)
    (msFromNow : Nat) (now : Nat) : ExpiringMap K V W E × Bool :=
  match jsMapGet m.map k with
  | some entry =>
    (m.set k entry.value (some msFromNow) entry.expiryCallback now, true)
  | none => (m, false)

/-- ExpiringMap.setMinimumExpiry: reads the current expiry; when it is a
number, extends it through setExpiry exactly when now + minimumMsFromNow
is strictly later, and otherwise leaves the container untouched and
returns true; when the key is absent or has no expiry, returns false. -/
def ExpiringMap.setMinimumExpiry (m : ExpiringMap K V W E) (k : K)
    (minimumMsFromNow : Nat) (now : Nat) : ExpiringMap K V W E × Bool :=
  match m.getExpiry k with
  | some oldExpiry =>
    if now + minimumMsFromNow > oldExpiry then m.setExpiry k minimumMsFromNow now
    else (m, true)
  | none => (m, false)

/-- The body of the asynchronous closure passed to setTimeout in
ExpiringMap.set: delete the entry from the store, then invoke the
captured expiry callback (when one is set) with the key, the value and
the container; a callback failure propagates out of the body. -/
def ExpiringMap.timerBody (td : TimerData K V W E) :
    ExpiringMap K V W E × W → (ExpiringMap K V W E × W) × Option E :=
  fun s =>
    let m1 := (s.1.delete td.key).1
    match td.expiryCallback with
    | some cb =>
      let r := cb td.key td.value m1.keysList s.2
      ((m1, r.1), r.2)
    | none => ((m1, s.2), none)

/-- Lifts the expireErrorCallback sink, which acts on the world, to the
combined container-and-world state toSync is run on. -/
def liftSink (sink : E → W → W) :
    E → ExpiringMap K V W E × W → ExpiringMap K V W E × W :=
  fun e s => (s.1, sink e s.2)

/-- The runtime event of a pending timer firing: the timer is consumed
(single shot) and its closure, wrapped by toSync with the configured
expireErrorCallback, runs: it removes the entry first and only then runs
the expiry callback, any failure of which is routed to the sink or
swallowed.  The return type has no error channel: a firing timer can
never surface a failure. -/
def ExpiringMap.fireTimer (m : ExpiringMap K V W E) (tid : Nat) (w : W) :
    ExpiringMap K V W E × W :=
  match jsMapGet m.pending tid with
  | none => (m, w)
  | some td =>
    toSync (ExpiringMap.timerBody td)
      ((m.options.bind ExpiringMapOptions.expireErrorCallback).map liftSink)
      (⟨m.options, m.map, jsMapDelete m.pending tid, m.nextTimerId⟩, w)

/-- ExpiringMap.expire: when the key is present, delete it (cancelling
its timer), then await its expiry callback directly when it has one, any
failure of which propagates to the caller; returns whether the key
existed. -/
def ExpiringMap.expire (m : ExpiringMap K V W E) (k : K) (w : W) :
    ExpiringMap K V W E × W × Except E Bool :=
  match jsMapGet m.map k with
  | some entry =>
    let m1 := (m.delete k).1
    match entry.expiryCallback with
    | some cb =>
      match cb k entry.value m1.keysList w with
      | (w1, some err) => (m1, w1, Except.error err)
      | (w1, none) => (m1, w1, Except.ok true)
    | none => (m1, w, Except.ok true)
  | none => (m, w, Except.ok false)

/-- ExpiringMap.expireAll: expire is started for every currently present
key, in iteration order, and all of them are awaited; the aggregate
fails with the first failure when one of the callbacks fails. -/
def ExpiringMap.expireAll (m : ExpiringMap K V W E) (w : W) :
    ExpiringMap K V W E × W × Option E :=
  m.keysList.foldl
    (fun acc k =>
      let r := acc.1.expire k acc.2.1
      (r.1, r.2.1,
        match acc.2.2 with
        | some e => some e
        | none =>
          match r.2.2 with
          | Except.error e => some e
          | Except.ok _ => none))
    (m, w, none)

/-- ExpiringMap.forEach: starts the callback on every entry in iteration
order and awaits all of the started invocations; the aggregate fails with
the first failure when one of the callbacks fails.  The callback receives
the value, the key and the container. -/
def ExpiringMap.forEach (m : ExpiringMap K V W E)
    (f : V → K → List K → W → W × Option E) (w : W) : W × Option E :=
  m.entriesList.foldl
    (fun acc kv =>
      let r := f kv.2 kv.1 m.keysList acc.1
      (r.1,
        match acc.2 with
        | some e => some e
        | none => r.2))
    (w, none)

/-- The public operations of the container, reified so that one statement
can quantify over all of them.  The arguments of each constructor are the
arguments of the corresponding method. -/
inductive MapOp (K V W E : Type) where
  | setOp (k : K) (v : V) (expiryMsArg : Option Nat)
      (cbArg : Option (ExpiryCallback K V W E))
  | getOp (k : K)
  | hasOp (k : K)
  | deleteOp (k : K)
  | clearOp
  | getExpiryOp (k : K)
  | clearExpiryOp (k : K)
  | setExpiryOp (k : K) (msFromNow : Nat)
  | setMinimumExpiryOp (k : K) (minimumMsFromNow : Nat)
  | sizeOp
  | keysOp
  | entriesOp
  | valuesOp
  | forEachOp (f : V → K → List K → W → W × Option E)
  | expireOp (k : K)
  | expireAllOp

/-- Uniform big-step evaluation of one public operation: the new
container state, the new world, and the error surfaced to the caller,
none when the operation completes without failure.  Read-only operations
(get, has, getExpiry, size and the iterators) change nothing and cannot
fail; their return values are not tracked here. -/
def runOp (op : MapOp K V W E) (m : ExpiringMap K V W E) (w : W) (now : Nat) :
    ExpiringMap K V W E × W × Option E :=
  match op with
  | MapOp.setOp k v ms cb => (m.set k v ms cb now, w, none)
  | MapOp.getOp _ => (m, w, none)
  | MapOp.hasOp _ => (m, w, none)
  | MapOp.deleteOp k => ((m.delete k).1, w, none)
  | MapOp.clearOp => (m.clear, w, none)
  | MapOp.getExpiryOp _ => (m, w, none)
  | MapOp.clearExpiryOp k => ((m.clearExpiry k).1, w, none)
  | MapOp.setExpiryOp k ms => ((m.setExpiry k ms now).1, w, none)
  | MapOp.setMinimumExpiryOp k mm => ((m.setMinimumExpiry k mm now).1, w, none)
  | MapOp.sizeOp => (m, w, none)
  | MapOp.keysOp => (m, w, none)
  | MapOp.entriesOp => (m, w, none)
  | MapOp.valuesOp => (m, w, none)
  | MapOp.forEachOp f =>
    let r := m.forEach f w
    (m, r.1, r.2)
  | MapOp.expireOp k =>
    let r := m.expire k w
    (r.1, r.2.1,
      match r.2.2 with
      | Except.error e => some e
      | Except.ok _ => none)
  | MapOp.expireAllOp => m.expireAll w

/-- The operations whose evaluation runs user-supplied callbacks and may
therefore surface a callback failure: forEach, expire and expireAll. -/
def MapOp.runsUserCallback : MapOp K V W E → Bool
  | MapOp.forEachOp _ => true
  | MapOp.expireOp _ => true
  | MapOp.expireAllOp => true
  | _ => false

/-- Specification-side fold for expireAll: runs the expiry callback of
every listed entry in order, each seeing exactly the keys of the entries
after it (they are the ones still present when it starts), threading the
world and keeping the first failure. -/
def runAllCallbacks : List (K × MapEntry K V W E) → W → W × Option E
  | [], w => (w, none)
  | (k, e) :: rest, w =>
    match e.expiryCallback with
    | some cb =>
      let r := cb k e.value (keysOf rest) w
      let r2 := runAllCallbacks rest r.1
      (r2.1,
        match r.2 with
        | some x => some x
        | none => r2.2)
    | none => runAllCallbacks rest w

theorem delete_map_head (m : ExpiringMap K V W E) (k : K)
    (e : MapEntry K V W E) (rest : List (K × MapEntry K V W E))
    (h : m.map = (k, e) :: rest) : ((m.delete k).1).map = rest := by
  simp [ExpiringMap.delete, h]

theorem foldl_delete_map_eq_nil :
    ∀ (mp : List (K × MapEntry K V W E)) (m : ExpiringMap K V W E),
      m.map = mp →
      ((keysOf mp).foldl (fun acc k => (acc.delete k).1) m).map = [] := by
  intro mp
  induction mp with
  | nil => intro m h; simpa using h
  | cons hd rest ih =>
    obtain ⟨k1, e1⟩ := hd
    intro m h
    simp only [keysOf_cons, List.foldl_cons]
    exact ih ((m.delete k1).1) (delete_map_head m k1 e1 rest h)

/-- clear empties the backing map. -/
theorem clear_map_eq_nil (m : ExpiringMap K V W E) : (m.clear).map = [] :=
  foldl_delete_map_eq_nil m.map m rfl

theorem expireAll_fold_spec :
    ∀ (mp : List (K × MapEntry K V W E)) (m : ExpiringMap K V W E) (w : W)
      (err0 : Option E), m.map = mp →
      ((keysOf mp).foldl
        (fun acc k =>
          let r := acc.1.expire k acc.2.1
          (r.1, r.2.1,
            match acc.2.2 with
            | some e => some e
            | none =>
              match r.2.2 with
              | Except.error e => some e
              | Except.ok _ => none))
        (m, w, err0)).1.map = [] ∧
      ((keysOf mp).foldl
        (fun acc k =>
          let r := acc.1.expire k acc.2.1
          (r.1, r.2.1,
            match acc.2.2 with
            | some e => some e
            | none =>
              match r.2.2 with
              | Except.error e => some e
              | Except.ok _ => none))
        (m, w, err0)).2.1 = (runAllCallbacks mp w).1 ∧
      ((keysOf mp).foldl
        (fun acc k =>
          let r := acc.1.expire k acc.2.1
          (r.1, r.2.1,
            match acc.2.2 with
            | some e => some e
            | none =>
              match r.2.2 with
              | Except.error e => some e
              | Except.ok _ => none))
        (m, w, err0)).2.2 =
        (match err0 with
         | some e => some e
         | none => (runAllCallbacks mp w).2) := by
  intro mp
  induction mp with
  | nil =>
    intro m w err0 h
    refine ⟨by simpa using h, rfl, ?_⟩
    cases err0 <;> rfl
  | cons hd rest ih =>
    obtain ⟨k1, e1⟩ := hd
    intro m w err0 h
    have hget : jsMapGet m.map k1 = some e1 := by rw [h]; simp
    have hm1 : ((m.delete k1).1).map = rest := delete_map_head m k1 e1 rest h
    have hkeys : ((m.delete k1).1).keysList = keysOf rest := by
      simp [ExpiringMap.keysList, hm1]
    simp only [keysOf_cons, List.foldl_cons]
    cases hcb : e1.expiryCallback with
    | none =>
      have hexp : m.expire k1 w = ((m.delete k1).1, w, Except.ok true) := by
        simp [ExpiringMap.expire, hget, hcb]
      rw [hexp]
      simp only [runAllCallbacks, hcb]
      cases err0 with
      | none =>
        have hrec := ih ((m.delete k1).1) w none hm1
        exact ⟨hrec.1, hrec.2.1, hrec.2.2⟩
      | some y =>
        have hrec := ih ((m.delete k1).1) w (some y) hm1
        exact ⟨hrec.1, hrec.2.1, hrec.2.2⟩
    | some cb =>
      cases hr : cb k1 e1.value (keysOf rest) w with
      | mk w1 errc =>
        have hcall : cb k1 e1.value (((m.delete k1).1).keysList) w = (w1, errc) := by
          rw [hkeys, hr]
        have hexp : m.expire k1 w =
            ((m.delete k1).1, w1,
              match errc with
              | some err => Except.error err
              | none => Except.ok true) := by
          cases errc <;> simp [ExpiringMap.expire, hget, hcb, hcall]
        rw [hexp]
        simp only [runAllCallbacks, hcb, hr]
        cases err0 with
        | none =>
          cases errc with
          | none =>
            have hrec := ih ((m.delete k1).1) w1 none hm1
            exact ⟨hrec.1, hrec.2.1, hrec.2.2⟩
          | some x =>
            have hrec := ih ((m.delete k1).1) w1 (some x) hm1
            exact ⟨hrec.1, hrec.2.1, hrec.2.2⟩
        | some y =>
          cases errc with
          | none =>
            have hrec := ih ((m.delete k1).1) w1 (some y) hm1
            exact ⟨hrec.1, hrec.2.1, hrec.2.2⟩
          | some x =>
            have hrec := ih ((m.delete k1).1) w1 (some y) hm1
            exact ⟨hrec.1, hrec.2.1, hrec.2.2⟩

theorem keysOf_set_after_delete (mp : List (K × MapEntry K V W E)) (k : K)
    (en : MapEntry K V W E) (hnd : (keysOf mp).Nodup) :
    keysOf (jsMapSet (jsMapDelete mp k) k en) = (keysOf mp).erase k ++ [k] := by
  rw [jsMapSet_of_get_none _ _ _ (jsMapGet_delete_self mp k hnd)]
  have h := keysOf_delete mp k
  simp only [keysOf] at h ⊢
  simp [h]

theorem set_map_shape (m : ExpiringMap K V W E) (k : K) (v : V)
    (msArg : Option Nat) (cbArg : Option (ExpiryCallback K V W E)) (now : Nat) :
    ∃ en : MapEntry K V W E,
      (m.set k v msArg cbArg now).map = jsMapSet (jsMapDelete m.map k) k en ∧
      en.value = v := by
  simp only [ExpiringMap.set, ExpiringMap.delete]
  split
  · exact ⟨_, rfl, rfl⟩
  · exact ⟨_, rfl, rfl⟩

theorem set_getExpiry_self (m : ExpiringMap K V W E) (k : K) (v : V)
    (ms : Nat) (cbArg : Option (ExpiryCallback K V W E)) (now : Nat) :
    (m.set k v (some ms) cbArg now).getExpiry k = some (now + ms) := by
  simp only [ExpiringMap.set, ExpiringMap.delete, ExpiringMap.getExpiry]
  rw [jsMapGet_set_self]
  rfl

theorem set_get_self (m : ExpiringMap K V W E) (k : K) (v : V)
    (msArg : Option Nat) (cbArg : Option (ExpiryCallback K V W E)) (now : Nat) :
    (m.set k v msArg cbArg now).get k = some v := by
  obtain ⟨en, hmap, hv⟩ := set_map_shape m k v msArg cbArg now
  simp [ExpiringMap.get, hmap, jsMapGet_set_self, hv]

/-- Claim C1: setMinimumExpiry has exactly a three-way outcome.  It
returns false and changes nothing when the key is absent or its entry
has no expiry; it returns true and leaves the container (hence the
entry) completely unchanged when the current expiry is at or after
now + minimum; and otherwise it goes through setExpiry, returns true,
and the entry ends up with expiry now + minimum and its value kept. -/
theorem c1_setMinimumExpiry_three_way (m : ExpiringMap K V W E) (k : K)
    (mm now : Nat) :
    (jsMapGet m.map k = none → m.setMinimumExpiry k mm now = (m, false)) ∧
    (∀ e : MapEntry K V W E, jsMapGet m.map k = some e → e.expiry = none →
      m.setMinimumExpiry k mm now = (m, false)) ∧
    (∀ (e : MapEntry K V W E) (x : Nat), jsMapGet m.map k = some e →
      e.expiry = some x → now + mm ≤ x →
      m.setMinimumExpiry k mm now = (m, true)) ∧
    (∀ (e : MapEntry K V W E) (x : Nat), jsMapGet m.map k = some e →
      e.expiry = some x → x < now + mm →
      m.setMinimumExpiry k mm now = m.setExpiry k mm now ∧
      (m.setMinimumExpiry k mm now).2 = true ∧
      ((m.setMinimumExpiry k mm now).1).getExpiry k = some (now + mm) ∧
      ((m.setMinimumExpiry k mm now).1).get k = some e.value) := by
  refine ⟨?_, ?_, ?_, ?_⟩
  · intro h
    simp [ExpiringMap.setMinimumExpiry, ExpiringMap.getExpiry, h]
  · intro e h he
    simp [ExpiringMap.setMinimumExpiry, ExpiringMap.getExpiry, h, he]
  · intro e x h he hle
    have hge : m.getExpiry k = some x := by simp [ExpiringMap.getExpiry, h, he]
    simp [ExpiringMap.setMinimumExpiry, hge, Nat.not_lt.mpr hle]
  · intro e x h he hlt
    have hge : m.getExpiry k = some x := by simp [ExpiringMap.getExpiry, h, he]
    have hmain : m.setMinimumExpiry k mm now = m.setExpiry k mm now := by
      simp [ExpiringMap.setMinimumExpiry, hge, hlt]
    have hse : m.setExpiry k mm now =
        (m.set k e.value (some mm) e.expiryCallback now, true) := by
      simp [ExpiringMap.setExpiry, h]
    refine ⟨hmain, ?_, ?_, ?_⟩
    · rw [hmain, hse]
    · rw [hmain, hse]
      exact set_getExpiry_self m k e.value mm e.expiryCallback now
    · rw [hmain, hse]
      exact set_get_self m k e.value (some mm) e.expiryCallback now

/-- A concrete container for witnesses: key 1 holds value 7 with expiry
timestamp 100 and an armed timer 0. -/
def sampleTimed : ExpiringMap Nat Nat Nat Nat :=
  ⟨none, [(1, ⟨some 100, some 0, none, 7⟩)], [(0, ⟨1, 7, none, 100⟩)], 1⟩

/-- The entry of key 1 in sampleTimed. -/
def sampleTimedEntry : MapEntry Nat Nat Nat Nat :=
  ⟨some 100, some 0, none, 7⟩

/-- Witness for C1 at a concrete container: key 1 holds value 7 with
expiry 100; with now = 0 and minimum 150 the expiry is extended to 150,
and with minimum 50 the container is unchanged. -/
theorem c1_setMinimumExpiry_three_way_witness :
    (jsMapGet sampleTimed.map 1 = some sampleTimedEntry) ∧
    (sampleTimedEntry.expiry = some 100) ∧
    (100 < 0 + 150) ∧
    (sampleTimed.setMinimumExpiry 1 150 0).2 = true ∧
    ((sampleTimed.setMinimumExpiry 1 150 0).1).getExpiry 1 = some 150 ∧
    (0 + 50 ≤ 100) ∧
    sampleTimed.setMinimumExpiry 1 50 0 = (sampleTimed, true) := by
  refine ⟨rfl, rfl, by decide, ?_, ?_, by decide, ?_⟩
  · exact ((c1_setMinimumExpiry_three_way sampleTimed 1 150 0).2.2.2
      sampleTimedEntry 100 rfl rfl (by decide)).2.1
  · exact ((c1_setMinimumExpiry_three_way sampleTimed 1 150 0).2.2.2
      sampleTimedEntry 100 rfl rfl (by decide)).2.2.1
  · exact (c1_setMinimumExpiry_three_way sampleTimed 1 50 0).2.2.1
      sampleTimedEntry 100 rfl rfl (by decide)

/-- Claim C8: for a present key, setExpiry is exactly re-insertion of the
stored value and stored expiry callback with the new TTL through set, and
returns true; the result holds the same value with expiry now + ms.  For
an absent key it alters nothing and returns false. -/
theorem c8_setExpiry_is_reinsertion (m : ExpiringMap K V W E) (k : K)
    (ms now : Nat) :
    (jsMapGet m.map k = none → m.setExpiry k ms now = (m, false)) ∧
    (∀ e : MapEntry K V W E, jsMapGet m.map k = some e →
      m.setExpiry k ms now = (m.set k e.value (some ms) e.expiryCallback now, true) ∧
      ((m.setExpiry k ms now).1).get k = some e.value ∧
      ((m.setExpiry k ms now).1).getExpiry k = some (now + ms)) := by
  refine ⟨?_, ?_⟩
  · intro h
    simp [ExpiringMap.setExpiry, h]
  · intro e h
    have hse : m.setExpiry k ms now =
        (m.set k e.value (some ms) e.expiryCallback now, true) := by
      simp [ExpiringMap.setExpiry, h]
    refine ⟨hse, ?_, ?_⟩
    · rw [hse]
      exact set_get_self m k e.value (some ms) e.expiryCallback now
    · rw [hse]
      exact set_getExpiry_self m k e.value ms e.expiryCallback now

/-- A concrete container for witnesses: key 2 holds value 9 without a
TTL. -/
def sampleUntimed : ExpiringMap Nat Nat Nat Nat :=
  ⟨none, [(2, ⟨none, none, none, 9⟩)], [], 0⟩

/-- The entry of key 2 in sampleUntimed. -/
def sampleUntimedEntry : MapEntry Nat Nat Nat Nat :=
  ⟨none, none, none, 9⟩

/-- Witness for C8 at a concrete container: key 2 holds value 9 with no
TTL; setExpiry 2 40 at now = 5 keeps the value and sets expiry 45, and
setExpiry on the absent key 3 returns false and changes nothing. -/
theorem c8_setExpiry_is_reinsertion_witness :
    (jsMapGet sampleUntimed.map 2 = some sampleUntimedEntry) ∧
    ((sampleUntimed.setExpiry 2 40 5).1).get 2 = some 9 ∧
    ((sampleUntimed.setExpiry 2 40 5).1).getExpiry 2 = some 45 ∧
    (jsMapGet sampleUntimed.map 3 = none) ∧
    sampleUntimed.setExpiry 3 40 5 = (sampleUntimed, false) := by
  refine ⟨rfl, ?_, ?_, rfl, ?_⟩
  · exact ((c8_setExpiry_is_reinsertion sampleUntimed 2 40 5).2
      sampleUntimedEntry rfl).2.1
  · exact ((c8_setExpiry_is_reinsertion sampleUntimed 2 40 5).2
      sampleUntimedEntry rfl).2.2
  · exact (c8_setExpiry_is_reinsertion sampleUntimed 3 40 5).1 rfl

/-- Claim C9: clearExpiry returns true for every present key, timed or
not; it keeps the key, the value, the callback and the position of the
entry in iteration order, unsets expiry and timer, leaves all other
entries untouched, and when the entry already had no expiry and no timer
it is an observable no-op apart from the true return. -/
theorem c9_clearExpiry_present_semantics (m : ExpiringMap K V W E) (k : K) :
    (jsMapGet m.map k = none → m.clearExpiry k = (m, false)) ∧
    (∀ e : MapEntry K V W E, jsMapGet m.map k = some e →
      (m.clearExpiry k).2 = true ∧
      ((m.clearExpiry k).1).keysList = m.keysList ∧
      jsMapGet ((m.clearExpiry k).1).map k =
        some ⟨none, none, e.expiryCallback, e.value⟩ ∧
      (∀ k2, k2 ≠ k →
        jsMapGet ((m.clearExpiry k).1).map k2 = jsMapGet m.map k2) ∧
      (e.expiry = none → e.timer = none → m.clearExpiry k = (m, true))) := by
  refine ⟨?_, ?_⟩
  · intro h
    simp [ExpiringMap.clearExpiry, h]
  · intro e h
    refine ⟨by simp [ExpiringMap.clearExpiry, h], ?_, ?_, ?_, ?_⟩
    · simp only [ExpiringMap.clearExpiry, h, ExpiringMap.keysList]
      exact keysOf_set_of_get_some m.map k _ h
    · simp only [ExpiringMap.clearExpiry, h]
      exact jsMapGet_set_self m.map k _
    · intro k2 hk2
      simp only [ExpiringMap.clearExpiry, h]
      exact jsMapGet_set_ne m.map k k2 _ hk2
    · intro hexp htim
      have he : e = ⟨none, none, e.expiryCallback, e.value⟩ := by
        cases e
        simp_all
      simp only [ExpiringMap.clearExpiry, h, ← he, htim]
      rw [jsMapSet_self_of_get m.map k h]
      rfl

/-- A concrete container for witnesses: entry 4 with expiry 30 and armed
timer 0, entry 6 without a TTL, in that insertion order. -/
def samplePair : ExpiringMap Nat Nat Nat Nat :=
  ⟨none, [(4, ⟨some 30, some 0, none, 1⟩), (6, ⟨none, none, none, 2⟩)],
   [(0, ⟨4, 1, none, 30⟩)], 1⟩

/-- Witness for C9 at a concrete container: two entries 4 and 6, where 6
has no TTL; clearExpiry 4 keeps order and value while unsetting expiry,
and clearExpiry 6 returns true and is an observable no-op. -/
theorem c9_clearExpiry_present_semantics_witness :
    (jsMapGet samplePair.map 4 = some ⟨some 30, some 0, none, 1⟩) ∧
    (samplePair.clearExpiry 4).2 = true ∧
    ((samplePair.clearExpiry 4).1).keysList = [4, 6] ∧
    samplePair.clearExpiry 6 = (samplePair, true) := by
  refine ⟨rfl, ?_, ?_, ?_⟩
  · exact ((c9_clearExpiry_present_semantics samplePair 4).2
      ⟨some 30, some 0, none, 1⟩ rfl).1
  · have h := ((c9_clearExpiry_present_semantics samplePair 4).2
      ⟨some 30, some 0, none, 1⟩ rfl).2.1
    rw [h]
    rfl
  · exact ((c9_clearExpiry_present_semantics samplePair 6).2
      ⟨none, none, none, 2⟩ rfl).2.2.2.2 rfl rfl

/-- Three entries 10, 20, 30 without TTL inserted in that order into an
empty container. -/
def sampleThree : ExpiringMap Nat Nat Nat Nat :=
  (((⟨none, [], [], 0⟩ : ExpiringMap Nat Nat Nat Nat).set 10 1 none none 0).set
    20 2 none none 0).set 30 3 none none 0

/-- Claim C5: all iteration surfaces walk the backing list in the same
insertion order (entries carries the keys in key order and values is the
value projection of entries), set is delete-then-set and so moves the key
to the end of the iteration order, and keys inserted in order 10, 20, 30
are yielded in exactly that order. -/
theorem c5_insertion_order (m : ExpiringMap K V W E) (k : K) (v : V)
    (msArg : Option Nat) (cbArg : Option (ExpiryCallback K V W E)) (now : Nat)
    (hnd : (keysOf m.map).Nodup) :
    (m.set k v msArg cbArg now).keysList = (m.keysList).erase k ++ [k] ∧
    m.entriesList.map Prod.fst = m.keysList ∧
    m.valuesList = m.entriesList.map Prod.snd ∧
    sampleThree.keysList = [10, 20, 30] ∧
    sampleThree.entriesList = [(10, 1), (20, 2), (30, 3)] := by
  refine ⟨?_, ?_, rfl, rfl, rfl⟩
  · obtain ⟨en, hmap, _⟩ := set_map_shape m k v msArg cbArg now
    simp only [ExpiringMap.keysList, hmap]
    exact keysOf_set_after_delete m.map k en hnd
  · simp only [ExpiringMap.entriesList, ExpiringMap.keysList, keysOf, List.map_map]
    rfl

/-- Witness for C5: on the three-key container, re-inserting the present
key 20 moves it to the end of the iteration order. -/
theorem c5_insertion_order_witness :
    (keysOf sampleThree.map).Nodup ∧
    sampleThree.keysList = [10, 20, 30] ∧
    (sampleThree.set 20 5 none none 0).keysList = [10, 30, 20] := by
  refine ⟨by decide, rfl, ?_⟩
  have h := (c5_insertion_order sampleThree 20 5 none none 0 (by decide)).1
  rw [h]
  rfl

/-- Claim C10: setMinimumExpiry touches the iteration order
asymmetrically: extending the expiry goes through setExpiry, whose
delete-then-set re-insertion moves the key to the end of the iteration
order, whereas the already-satisfied branch leaves the container, hence
the position of the key, completely unchanged. -/
theorem c10_setMinimumExpiry_order_asymmetry (m : ExpiringMap K V W E)
    (k : K) (mm now : Nat) (hnd : (keysOf m.map).Nodup) :
    (∀ (e : MapEntry K V W E) (x : Nat), jsMapGet m.map k = some e →
      e.expiry = some x → x < now + mm →
      m.setMinimumExpiry k mm now = m.setExpiry k mm now ∧
      ((m.setMinimumExpiry k mm now).1).keysList = (m.keysList).erase k ++ [k]) ∧
    (∀ (e : MapEntry K V W E) (x : Nat), jsMapGet m.map k = some e →
      e.expiry = some x → now + mm ≤ x →
      (m.setMinimumExpiry k mm now).1 = m) := by
  constructor
  · intro e x h he hlt
    have hge : m.getExpiry k = some x := by simp [ExpiringMap.getExpiry, h, he]
    have hmain : m.setMinimumExpiry k mm now = m.setExpiry k mm now := by
      simp [ExpiringMap.setMinimumExpiry, hge, hlt]
    refine ⟨hmain, ?_⟩
    rw [hmain]
    have hse : m.setExpiry k mm now =
        (m.set k e.value (some mm) e.expiryCallback now, true) := by
      simp [ExpiringMap.setExpiry, h]
    rw [hse]
    obtain ⟨en, hmap, _⟩ := set_map_shape m k e.value (some mm) e.expiryCallback now
    simp only [ExpiringMap.keysList, hmap]
    exact keysOf_set_after_delete m.map k en hnd
  · intro e x h he hle
    have hge : m.getExpiry k = some x := by simp [ExpiringMap.getExpiry, h, he]
    simp [ExpiringMap.setMinimumExpiry, hge, Nat.not_lt.mpr hle]

/-- Witness for C10 on the two-key container: extending the expiry of
key 4 moves it behind key 6, while an already-satisfied minimum leaves
the container unchanged. -/
theorem c10_setMinimumExpiry_order_asymmetry_witness :
    (keysOf samplePair.map).Nodup ∧
    jsMapGet samplePair.map 4 = some ⟨some 30, some 0, none, 1⟩ ∧
    (30 < 0 + 100) ∧
    ((samplePair.setMinimumExpiry 4 100 0).1).keysList = [6, 4] ∧
    (0 + 10 ≤ 30) ∧
    (samplePair.setMinimumExpiry 4 10 0).1 = samplePair := by
  refine ⟨by decide, rfl, by decide, ?_, by decide, ?_⟩
  · have h := ((c10_setMinimumExpiry_order_asymmetry samplePair 4 100 0
      (by decide)).1 ⟨some 30, some 0, none, 1⟩ 30 rfl rfl (by decide)).2
    rw [h]
    rfl
  · exact (c10_setMinimumExpiry_order_asymmetry samplePair 4 10 0
      (by decide)).2 ⟨some 30, some 0, none, 1⟩ 30 rfl rfl (by decide)

/-- Claim C6: delete cancels the pending timer of the entry, removes the
entry from the store, returns true exactly when the key was present, and
never invokes the expiry callback (its uniform evaluation leaves the
world untouched and surfaces no error); clear applies delete to every
key, so afterwards the container is empty and likewise no callback was
invoked. -/
theorem c6_delete_and_clear (m : ExpiringMap K V W E) (k : K) (w : W)
    (now : Nat) :
    (m.delete k).2 = jsMapHas m.map k ∧
    ((m.delete k).1).map = jsMapDelete m.map k ∧
    (∀ (e : MapEntry K V W E) (tid : Nat), jsMapGet m.map k = some e →
      e.timer = some tid → (keysOf m.pending).Nodup →
      jsMapGet ((m.delete k).1).pending tid = none) ∧
    runOp (MapOp.deleteOp k) m w now = ((m.delete k).1, w, none) ∧
    runOp MapOp.clearOp m w now = (m.clear, w, none) ∧
    (m.clear).map = [] ∧
    (m.clear).size = 0 := by
  refine ⟨rfl, rfl, ?_, rfl, rfl, clear_map_eq_nil m, ?_⟩
  · intro e tid h ht hnd
    have hbind : (jsMapGet m.map k).bind MapEntry.timer = some tid := by
      rw [h]
      exact ht
    show jsMapGet
      (clearTimeoutOn m.pending ((jsMapGet m.map k).bind MapEntry.timer)) tid = none
    rw [hbind]
    exact jsMapGet_delete_self m.pending tid hnd
  · simp [ExpiringMap.size, clear_map_eq_nil m]

/-- Witness for C6 on the two-key container: deleting key 4 cancels its
armed timer 0, returns true, and clear empties the container. -/
theorem c6_delete_and_clear_witness :
    jsMapGet samplePair.map 4 = some ⟨some 30, some 0, none, 1⟩ ∧
    (⟨some 30, some 0, none, 1⟩ : MapEntry Nat Nat Nat Nat).timer = some 0 ∧
    (keysOf samplePair.pending).Nodup ∧
    jsMapGet ((samplePair.delete 4).1).pending 0 = none ∧
    (samplePair.delete 4).2 = true ∧
    (samplePair.clear).size = 0 := by
  refine ⟨rfl, rfl, by decide, ?_, ?_, ?_⟩
  · exact (c6_delete_and_clear samplePair 4 0 0).2.2.1
      ⟨some 30, some 0, none, 1⟩ 0 rfl rfl (by decide)
  · have h := (c6_delete_and_clear samplePair 4 0 0).1
    rw [h]
    rfl
  · exact (c6_delete_and_clear samplePair 4 0 0).2.2.2.2.2.2

/-- Claim C4 (amended): every container operation that does not run a
user-supplied callback — set, get, has, delete, clear, getExpiry,
clearExpiry, setExpiry, setMinimumExpiry, size and the iterators —
completes without surfacing any failure and without touching the world;
only forEach, expire and expireAll run user callbacks and can surface a
callback failure. -/
theorem c4_total_without_user_callback (op : MapOp K V W E)
    (m : ExpiringMap K V W E) (w : W) (now : Nat)
    (h : op.runsUserCallback = false) :
    (runOp op m w now).2.2 = none ∧ (runOp op m w now).2.1 = w := by
  cases op <;> simp [MapOp.runsUserCallback] at h <;> exact ⟨rfl, rfl⟩

/-- Witness for C4 (amended) at a concrete operation: delete runs no
user callback and surfaces no failure. -/
theorem c4_total_without_user_callback_witness :
    MapOp.runsUserCallback (MapOp.deleteOp 2 : MapOp Nat Nat Nat Nat) = false ∧
    (runOp (MapOp.deleteOp 2 : MapOp Nat Nat Nat Nat) sampleUntimed 0 0).2.2 =
      none :=
  ⟨rfl, (c4_total_without_user_callback (MapOp.deleteOp 2) sampleUntimed 0 0
    rfl).1⟩

/-- The forEach callback used in the counterexample to C4 as stated: it
rejects with error 9 on every entry. -/
def failingCallback : Nat → Nat → List Nat → Nat → Nat × Option Nat :=
  fun _ _ _ w => (w, some 9)

/-- Counterexample to C4 as stated: forEach is neither expire nor
expireAll, yet on a one-entry container with a callback that rejects,
forEach surfaces the failure to its caller instead of completing without
one. -/
theorem c4_forEach_surfaces_failure :
    (sampleUntimed.forEach failingCallback 0).2 = some 9 ∧
    (runOp (MapOp.forEachOp failingCallback) sampleUntimed 0 0).2.2 = some 9 ∧
    MapOp.runsUserCallback
      (MapOp.forEachOp failingCallback : MapOp Nat Nat Nat Nat) = true :=
  ⟨rfl, rfl, rfl⟩

theorem expire_fst_of_present (m : ExpiringMap K V W E) (k : K) (w : W)
    (e : MapEntry K V W E) (h : jsMapGet m.map k = some e) :
    (m.expire k w).1 = (m.delete k).1 := by
  simp only [ExpiringMap.expire, h]
  cases hcb : e.expiryCallback with
  | none => rfl
  | some cb =>
    cases hr : cb k e.value (((m.delete k).1).keysList) w with
    | mk w1 errc => cases errc <;> simp [hr]

/-- Claim C3: expire on a present key removes the entry and then awaits
its callback directly, so a callback failure propagates to the caller as
the error outcome of expire and a callback success yields true; expire
on an absent key changes nothing and returns false, so a second expire
of an already expired key returns false. -/
theorem c3_expire_semantics (m : ExpiringMap K V W E) (k : K) (w w2 : W)
    (hnd : (keysOf m.map).Nodup) :
    (jsMapGet m.map k = none → m.expire k w = (m, w, Except.ok false)) ∧
    (∀ e : MapEntry K V W E, jsMapGet m.map k = some e →
      ((m.expire k w).1).map = jsMapDelete m.map k ∧
      (e.expiryCallback = none →
        m.expire k w = ((m.delete k).1, w, Except.ok true)) ∧
      (∀ cb : ExpiryCallback K V W E, e.expiryCallback = some cb →
        m.expire k w =
          ((m.delete k).1,
           (cb k e.value (((m.delete k).1).keysList) w).1,
           match (cb k e.value (((m.delete k).1).keysList) w).2 with
           | some err => Except.error err
           | none => Except.ok true)) ∧
      ((m.expire k w).1).expire k w2 =
        ((m.expire k w).1, w2, Except.ok false)) := by
  refine ⟨?_, ?_⟩
  · intro h
    simp [ExpiringMap.expire, h]
  · intro e h
    have hfst : (m.expire k w).1 = (m.delete k).1 := expire_fst_of_present m k w e h
    have hmap : ((m.expire k w).1).map = jsMapDelete m.map k := by
      rw [hfst]
      rfl
    refine ⟨hmap, ?_, ?_, ?_⟩
    · intro hcb
      simp [ExpiringMap.expire, h, hcb]
    · intro cb hcb
      cases hr : cb k e.value (((m.delete k).1).keysList) w with
      | mk w1 errc =>
        cases errc <;> simp [ExpiringMap.expire, h, hcb, hr]
    · have hnone : jsMapGet ((m.expire k w).1).map k = none := by
        rw [hmap]
        exact jsMapGet_delete_self m.map k hnd
      generalize (m.expire k w).1 = m1 at hnone ⊢
      simp [ExpiringMap.expire, hnone]

/-- The expiry callback used by the C3 witness: it adds key and value to
the world and fails with error 3. -/
def sampleCb : ExpiryCallback Nat Nat Nat Nat :=
  fun k v _ w => (w + k + v, some 3)

/-- A concrete container whose single entry, key 1 with value 7, has the
failing callback sampleCb and an armed timer 0 with expiry 50. -/
def sampleFire : ExpiringMap Nat Nat Nat Nat :=
  ⟨some ⟨none, none, some (fun e w => w + 100 * e)⟩,
   [(1, ⟨some 50, some 0, some sampleCb, 7⟩)],
   [(0, ⟨1, 7, some sampleCb, 50⟩)], 1⟩

/-- Witness for C3 on sampleFire: expire 1 removes the entry, runs the
callback (world 0 becomes 0 + 1 + 7 = 8) and propagates its error 3 to
the caller; a second expire returns false. -/
theorem c3_expire_semantics_witness :
    (keysOf sampleFire.map).Nodup ∧
    jsMapGet sampleFire.map 1 = some ⟨some 50, some 0, some sampleCb, 7⟩ ∧
    sampleFire.expire 1 0 =
      ((sampleFire.delete 1).1, 8, Except.error 3) ∧
    ((sampleFire.expire 1 0).1).expire 1 9 =
      ((sampleFire.expire 1 0).1, 9, Except.ok false) := by
  have h := c3_expire_semantics sampleFire 1 0 9 (by decide)
  refine ⟨by decide, rfl, ?_, (h.2 ⟨some 50, some 0, some sampleCb, 7⟩ rfl).2.2.2⟩
  have h3 := (h.2 ⟨some 50, some 0, some sampleCb, 7⟩ rfl).2.2.1 sampleCb rfl
  rw [h3]
  rfl

/-- The container state observed while the timer tid carrying td is
firing: the single-shot timer is consumed and the entry deleted before
the callback runs. -/
def ExpiringMap.duringFire (m : ExpiringMap K V W E) (tid : Nat)
    (td : TimerData K V W E) : ExpiringMap K V W E :=
  ((⟨m.options, m.map, jsMapDelete m.pending tid, m.nextTimerId⟩ :
    ExpiringMap K V W E).delete td.key).1

/-- Claim C2: when a pending timer fires, the closure armed by set runs
wrapped in toSync: it removes the entry from the store first, so the
container the callback observes no longer has the key; the callback is
then invoked with the key, the value and the container, and a callback
failure is routed to the configured expireErrorCallback, or swallowed
when none is configured — fireTimer returns no error channel at all, so
the timer path can never surface an unhandled failure.  Moreover set
with a TTL arms exactly such a timer, capturing the key, the value and
the effective callback. -/
theorem c2_timer_fire_semantics (m : ExpiringMap K V W E) (tid : Nat)
    (td : TimerData K V W E) (w : W)
    (hnd : (keysOf m.map).Nodup)
    (hp : jsMapGet m.pending tid = some td) :
    ((m.duringFire tid td).has td.key = false) ∧
    (td.expiryCallback = none →
      m.fireTimer tid w = (m.duringFire tid td, w)) ∧
    (∀ cb : ExpiryCallback K V W E, td.expiryCallback = some cb →
      m.fireTimer tid w =
        (m.duringFire tid td,
         (fun r =>
           match r.2, m.options.bind ExpiringMapOptions.expireErrorCallback with
           | some err, some sink => sink err r.1
           | some _, none => r.1
           | none, _ => r.1)
          (cb td.key td.value ((m.duringFire tid td).keysList) w))) ∧
    (∀ (k : K) (v : V) (ms : Nat) (cbArg : Option (ExpiryCallback K V W E))
      (now : Nat), (∀ q ∈ m.pending, q.1 < m.nextTimerId) →
      jsMapGet (m.set k v (some ms) cbArg now).pending m.nextTimerId =
        some ⟨k, v,
          (match cbArg with
           | some cb => some cb
           | none => m.options.bind ExpiringMapOptions.defaultExpiryCallback),
          ms⟩) := by
  refine ⟨?_, ?_, ?_, ?_⟩
  · simp [ExpiringMap.duringFire, ExpiringMap.has, jsMapHas, ExpiringMap.delete,
      jsMapGet_delete_self m.map td.key hnd]
  · intro hcb
    simp [ExpiringMap.fireTimer, hp, toSync, ExpiringMap.timerBody, hcb,
      ExpiringMap.duringFire]
  · intro cb hcb
    cases hr : cb td.key td.value ((m.duringFire tid td).keysList) w with
    | mk w1 errc =>
      have hr2 : cb td.key td.value
          ((((⟨m.options, m.map, jsMapDelete m.pending tid, m.nextTimerId⟩ :
            ExpiringMap K V W E).delete td.key).1).keysList) w = (w1, errc) := hr
      cases hsink : m.options.bind ExpiringMapOptions.expireErrorCallback with
      | none =>
        cases errc <;>
          simp [ExpiringMap.fireTimer, hp, toSync, ExpiringMap.timerBody, hcb,
            hr2, hsink, liftSink, ExpiringMap.duringFire, hr]
      | some sink =>
        cases errc <;>
          simp [ExpiringMap.fireTimer, hp, toSync, ExpiringMap.timerBody, hcb,
            hr2, hsink, liftSink, ExpiringMap.duringFire, hr]
  · intro k v ms cbArg now hq
    have hsub : ∀ q ∈ ((m.delete k).1).pending, q.1 < m.nextTimerId := by
      intro q hqmem
      apply hq
      show q ∈ m.pending
      have hpend : ((m.delete k).1).pending =
          clearTimeoutOn m.pending ((jsMapGet m.map k).bind MapEntry.timer) := rfl
      rw [hpend] at hqmem
      cases hx : (jsMapGet m.map k).bind MapEntry.timer with
      | none =>
        rw [hx] at hqmem
        exact hqmem
      | some t =>
        rw [hx] at hqmem
        exact mem_of_mem_jsMapDelete m.pending t hqmem
    have hnone : jsMapGet ((m.delete k).1).pending m.nextTimerId = none := by
      apply jsMapGet_eq_none_of_not_mem
      intro hmem
      obtain ⟨q, hqmem, hq1⟩ := List.mem_map.mp hmem
      exact absurd (hq1 ▸ hsub q hqmem) (lt_irrefl _)
    exact jsMapGet_append_right ((m.delete k).1).pending m.nextTimerId _ hnone

/-- Witness for C2 on sampleFire: firing timer 0 removes key 1 before
the callback runs (has is false in the observed state), the callback
turns world 0 into 8 and fails with 3, and the failure is routed to the
configured sink, yielding world 8 + 100 * 3 = 308; no failure escapes. -/
theorem c2_timer_fire_semantics_witness :
    (keysOf sampleFire.map).Nodup ∧
    jsMapGet sampleFire.pending 0 = some ⟨1, 7, some sampleCb, 50⟩ ∧
    (sampleFire.duringFire 0 ⟨1, 7, some sampleCb, 50⟩).has 1 = false ∧
    sampleFire.fireTimer 0 0 =
      (sampleFire.duringFire 0 ⟨1, 7, some sampleCb, 50⟩, 308) := by
  have h := c2_timer_fire_semantics sampleFire 0 ⟨1, 7, some sampleCb, 50⟩ 0
    (by decide) rfl
  refine ⟨by decide, rfl, h.1, ?_⟩
  have h3 := h.2.2.1 sampleCb rfl
  rw [h3]
  rfl

/-- Claim C7: expireAll empties the container regardless of the TTLs of
the entries, and its world and error outcome are exactly those of
running the callback of every present entry once, in insertion order,
each observing only the keys after it, with the first failure reported —
so the callback of every removed entry has run when expireAll returns. -/
theorem c7_expireAll_runs_all (m : ExpiringMap K V W E) (w : W) :
    ((m.expireAll w).1).map = [] ∧
    ((m.expireAll w).1).size = 0 ∧
    (m.expireAll w).2.1 = (runAllCallbacks m.map w).1 ∧
    (m.expireAll w).2.2 = (runAllCallbacks m.map w).2 := by
  have h := expireAll_fold_spec m.map m w none rfl
  have h1 : ((m.expireAll w).1).map = [] := h.1
  refine ⟨h1, ?_, h.2.1, h.2.2⟩
  show ((m.expireAll w).1).map.length = 0
  rw [h1]
  rfl

end ZaUtils
